import Mathlib

/-!
# Verification of the `total-byte-weight` audit

Shallow embedding of `lighthouse-core/audits/byte-efficiency/total-byte-weight.js`:
the record filter & aggregator, the top-10 ranking, and the log-normal score
curve, together with proofs of the specified properties.

Network records are embedded with `Nat` byte counts; throughput and per-record
transfer times (`totalMs`) are rationals. The score is a real number.
-/

namespace TotalByteWeight

open List MeasureTheory intervalIntegral Set

/-- Resource-type classification tag of a network record
(`record._resourceType` compared against `WebInspector.resourceTypes.*`). -/
inductive ResourceType where
  | script
  | image
  | stylesheet
  | document
  | font
  | media
  | other
deriving DecidableEq, Repr

/-- One observed network transfer (the fields of `LH.WebInspector.NetworkRequest`
that the audit reads). -/
structure NetworkRecord where
  url : String
  scheme : String
  finished : Bool
  transferSize : Nat
  resourceType : ResourceType
deriving DecidableEq, Repr

/-- The constant `BUNDLE_SIZE_THRESHOLD = 170 * 1024`. -/
def BUNDLE_SIZE_THRESHOLD : Nat := 170 * 1024

/-- The static helper `TotalByteWeight.hasExceededJSBundleSize`: true iff the record is a script
asset whose transfer size exceeds the bundle-size threshold. -/
def hasExceededJSBundleSize (record : NetworkRecord) : Bool :=
  record.resourceType == ResourceType.script
    && decide (BUNDLE_SIZE_THRESHOLD < record.transferSize)

/-- Modelled from the spec: `ByteEfficiencyAudit.bytesToMs` lives in
`byte-efficiency-audit.js`, which is not part of the sources under audit here.
Per the spec, it returns the estimated transfer time `bytes / throughput`
(throughput in bytes per millisecond), and a throughput of zero or unavailable
degrades `totalMs` to the defined placeholder 0 rather than raising a division
error. -/
def bytesToMs (bytes : Nat) (networkThroughput : ℚ) : ℚ :=
  if networkThroughput = 0 then 0 else (bytes : ℚ) / networkThroughput

/-- The per-record derived row built inside the `forEach` loop of
`TotalByteWeight.audit`. -/
structure AggregationResult where
  url : String
  totalBytes : Nat
  totalMs : ℚ
  flagged : Bool
deriving DecidableEq, Repr

/-- The filter predicate of the loop: a record contributes unless its scheme is
`data` or it is unfinished (`if (record.scheme === 'data' || !record.finished) return;`,
negated). -/
def includedRecord (record : NetworkRecord) : Bool :=
  !(record.scheme == "data") && record.finished

/-- The row constructed for one surviving record. -/
def toResult (networkThroughput : ℚ) (record : NetworkRecord) : AggregationResult :=
  { url := record.url
    totalBytes := record.transferSize
    totalMs := bytesToMs record.transferSize networkThroughput
    flagged := hasExceededJSBundleSize record }

/-- One iteration of the `forEach` loop: skip excluded records, otherwise add
the row's `totalBytes` to the running sum and append the row. -/
def aggregateStep (networkThroughput : ℚ) (acc : Nat × List AggregationResult)
    (record : NetworkRecord) : Nat × List AggregationResult :=
  if record.scheme == "data" || !record.finished then acc
  else
    let result := toResult networkThroughput record
    (acc.1 + result.totalBytes, acc.2 ++ [result])

/-- The whole `forEach` loop: the running byte total and the full (untruncated)
list of rows, in encounter order. -/
def aggregate (networkRecords : List NetworkRecord) (networkThroughput : ℚ) :
    Nat × List AggregationResult :=
  networkRecords.foldl (aggregateStep networkThroughput) (0, [])

/-- The audit's score-curve calibration options (`LH.Audit.ScoreOptions`). -/
structure ScoreOptions where
  scorePODR : ℚ
  scoreMedian : ℚ
deriving DecidableEq, Repr

/-- The getter `TotalByteWeight.defaultOptions`: `scorePODR: 2500 * 1024, scoreMedian: 4000 * 1024`. -/
def defaultOptions : ScoreOptions :=
  { scorePODR := 2500 * 1024
    scoreMedian := 4000 * 1024 }

/-- The Gauss error function, `erf x = (2/√π) ∫ t in 0..x, exp (-t²)`,
used to express the log-normal complementary CDF of the score curve. -/
noncomputable def erf (x : ℝ) : ℝ :=
  (2 / Real.sqrt Real.pi) * ∫ t in (0:ℝ)..x, Real.exp (-(t ^ 2))

/-- Modelled from the spec: the shape parameter of the log-normal score curve.
`ByteEfficiencyAudit.computeLogNormalScore` and the statistics helper it calls
live in `byte-efficiency-audit.js` / `lib/statistics.js`, which are not part of
the sources under audit; the spec only requires "a log-normal CDF with median
and a shape parameter derived from PODR". We model the shape as
`log (scoreMedian / scorePODR)`, which is positive whenever
`0 < scorePODR < scoreMedian`. -/
noncomputable def logNormalShape (scorePODR scoreMedian : ℚ) : ℝ :=
  Real.log ((scoreMedian : ℝ) / (scorePODR : ℝ))

/-- Modelled from the spec: `ByteEfficiencyAudit.computeLogNormalScore` is not
part of the sources under audit. Per the spec it is the complementary
log-normal CDF: the standardized log of the value is pushed through the error
function, so that the score is `1` at and below zero (the log diverges to
`-∞`), crosses `1/2` exactly at `scoreMedian`, and decreases strictly towards
`0` as the value grows. -/
noncomputable def computeLogNormalScore (value : ℝ) (scorePODR scoreMedian : ℚ) : ℝ :=
  if value ≤ 0 then 1
  else
    (1 - erf ((Real.log value - Real.log (scoreMedian : ℝ)) /
      (Real.sqrt 2 * logNormalShape scorePODR scoreMedian))) / 2

/-- The sort comparator `(itemA, itemB) => itemB.totalBytes - itemA.totalBytes`
read as a boolean "may come first" relation: `itemA` may precede `itemB` when
the comparator is non-positive, i.e. `itemB.totalBytes ≤ itemA.totalBytes`. -/
def sortLe (itemA itemB : AggregationResult) : Bool :=
  decide (itemB.totalBytes ≤ itemA.totalBytes)

/-- The object resolved by `TotalByteWeight.audit` (the `displayValue` string is
produced by the external `Util.formatBytesToKB` formatter and carries no
algorithmic content, so it is not embedded). `topResults` is the row list
handed to `makeTableDetails`; `extendedInfoResults` is `extendedInfo.value.results`.
In the source both are the single variable `results` after sort-and-slice. -/
structure AuditResult where
  score : ℝ
  rawValue : Nat
  topResults : List AggregationResult
  extendedInfoResults : List AggregationResult
  totalCompletedRequests : Nat

/-- The static method `TotalByteWeight.audit`, after its two inputs (network records, throughput)
have been resolved: filter and aggregate, count the survivors, sort by
`totalBytes` descending (stable) and keep the first 10, and score the byte
total through the log-normal curve with the context's options. -/
noncomputable def audit (networkRecords : List NetworkRecord) (networkThroughput : ℚ)
    (options : ScoreOptions) : AuditResult :=
  let agg := aggregate networkRecords networkThroughput
  let totalBytes := agg.1
  let totalCompletedRequests := agg.2.length
  let results := (agg.2.mergeSort sortLe).take 10
  { score := computeLogNormalScore (totalBytes : ℝ) options.scorePODR options.scoreMedian
    rawValue := totalBytes
    topResults := results
    extendedInfoResults := results
    totalCompletedRequests := totalCompletedRequests }

/-- Fifteen finished http records of equal transfer size and distinct URLs
(the spec's Scenario 4 input). -/
def sample15 : List NetworkRecord :=
  (List.range 15).map fun i =>
    { url := "u" ++ toString i
      scheme := "http"
      finished := true
      transferSize := 1000
      resourceType := ResourceType.script }

/-- A single finished http record. -/
def sampleRecord : NetworkRecord :=
  { url := "a"
    scheme := "http"
    finished := true
    transferSize := 5000
    resourceType := ResourceType.image }

/-- The loop skips a record exactly when `includedRecord` is false. -/
lemma aggregateStep_skip_iff (record : NetworkRecord) :
    (record.scheme == "data" || !record.finished) = !includedRecord record := by
  simp [includedRecord]

/-- Characterization of the loop from any starting accumulator: it adds the
transfer sizes of the included records and appends their rows in order. -/
lemma foldl_aggregateStep (networkThroughput : ℚ) :
    ∀ (l : List NetworkRecord) (b : Nat) (rs : List AggregationResult),
      l.foldl (aggregateStep networkThroughput) (b, rs) =
        (b + ((l.filter includedRecord).map NetworkRecord.transferSize).sum,
         rs ++ (l.filter includedRecord).map (toResult networkThroughput))
  | [], b, rs => by simp
  | record :: l, b, rs => by
    by_cases hrec : includedRecord record = true
    · have hskip : (record.scheme == "data" || !record.finished) = false := by
        rw [aggregateStep_skip_iff, hrec]; rfl
      simp only [foldl_cons, aggregateStep, hskip, Bool.false_eq_true, if_false,
        filter_cons_of_pos hrec, map_cons, sum_cons]
      rw [foldl_aggregateStep networkThroughput l]
      refine Prod.ext ?_ ?_
      · simp [toResult]; omega
      · simp
    · have hskip : (record.scheme == "data" || !record.finished) = true := by
        rw [aggregateStep_skip_iff, Bool.eq_false_iff.mpr hrec]; rfl
      simp only [foldl_cons, aggregateStep, hskip, if_true,
        filter_cons_of_neg hrec]
      exact foldl_aggregateStep networkThroughput l b rs

/-- The running total is the sum of `transferSize` over included records. -/
lemma aggregate_fst (networkRecords : List NetworkRecord) (networkThroughput : ℚ) :
    (aggregate networkRecords networkThroughput).1 =
      ((networkRecords.filter includedRecord).map NetworkRecord.transferSize).sum := by
  rw [aggregate, foldl_aggregateStep]; simp

/-- The accumulated rows are exactly the included records' rows, in order. -/
lemma aggregate_snd (networkRecords : List NetworkRecord) (networkThroughput : ℚ) :
    (aggregate networkRecords networkThroughput).2 =
      (networkRecords.filter includedRecord).map (toResult networkThroughput) := by
  rw [aggregate, foldl_aggregateStep]; simp

lemma audit_rawValue (networkRecords : List NetworkRecord) (networkThroughput : ℚ)
    (options : ScoreOptions) :
    (audit networkRecords networkThroughput options).rawValue =
      (aggregate networkRecords networkThroughput).1 := rfl

lemma audit_topResults (networkRecords : List NetworkRecord) (networkThroughput : ℚ)
    (options : ScoreOptions) :
    (audit networkRecords networkThroughput options).topResults =
      ((aggregate networkRecords networkThroughput).2.mergeSort sortLe).take 10 := rfl

lemma audit_totalCompletedRequests (networkRecords : List NetworkRecord)
    (networkThroughput : ℚ) (options : ScoreOptions) :
    (audit networkRecords networkThroughput options).totalCompletedRequests =
      (aggregate networkRecords networkThroughput).2.length := rfl

/-- The comparator relation is transitive. -/
lemma sortLe_trans : ∀ (a b c : AggregationResult),
    sortLe a b → sortLe b c → sortLe a c := by
  intro a b c hab hbc
  simp only [sortLe, decide_eq_true_eq] at hab hbc ⊢
  omega

/-- The comparator relation is total. -/
lemma sortLe_total : ∀ (a b : AggregationResult), sortLe a b || sortLe b a := by
  intro a b
  simp only [sortLe]
  rcases Nat.le_total b.totalBytes a.totalBytes with h | h <;> simp [h]

/-- Stability of the sort: within one `totalBytes` class, the sorted list keeps
the rows in their original order. -/
lemma mergeSort_filter_totalBytes (rs : List AggregationResult) (n : Nat) :
    (rs.mergeSort sortLe).filter (fun r => r.totalBytes == n) =
      rs.filter (fun r => r.totalBytes == n) := by
  set p : AggregationResult → Bool := fun r => r.totalBytes == n with hp
  have hpair : (rs.filter p).Pairwise (fun a b => sortLe a b) := by
    apply pairwise_of_forall_mem_list
    intro a ha b hb
    have ha' : p a = true := (mem_filter.mp ha).2
    have hb' : p b = true := (mem_filter.mp hb).2
    simp only [hp, beq_iff_eq] at ha' hb'
    simp [sortLe, ha', hb']
  have hsub : rs.filter p <+ rs.mergeSort sortLe :=
    sublist_mergeSort sortLe_trans sortLe_total hpair (filter_sublist rs)
  have hself : (rs.filter p).filter p = rs.filter p :=
    filter_eq_self.mpr fun a ha => (mem_filter.mp ha).2
  have hsub2 : rs.filter p <+ (rs.mergeSort sortLe).filter p := by
    have h := hsub.filter p
    rwa [hself] at h
  have hperm : ((rs.mergeSort sortLe).filter p).length = (rs.filter p).length :=
    ((mergeSort_perm rs sortLe).filter p).length_eq
  exact (hsub2.eq_of_length hperm.symm).symm

/-- C1: For every input list of network records, the returned `rawValue` equals
the sum of `transferSize` over exactly those records whose scheme is not `data`
and whose finished flag is true — over ALL such included records, not only the
10 shown in `topResults`. -/
theorem rawValue_eq_sum_included (networkRecords : List NetworkRecord)
    (networkThroughput : ℚ) (options : ScoreOptions) :
    (audit networkRecords networkThroughput options).rawValue =
      ((networkRecords.filter includedRecord).map NetworkRecord.transferSize).sum := by
  rw [audit_rawValue, aggregate_fst]

/-- C3: `totalCompletedRequests` equals the count of records passing the filter
predicate (scheme ≠ `data` and finished), counted before truncation to the top
10. -/
theorem totalCompletedRequests_eq_count (networkRecords : List NetworkRecord)
    (networkThroughput : ℚ) (options : ScoreOptions) :
    (audit networkRecords networkThroughput options).totalCompletedRequests =
      networkRecords.countP includedRecord := by
  rw [audit_totalCompletedRequests, aggregate_snd, length_map, ← countP_eq_length_filter]

/-- C2: `topResults` has length `min 10 totalCompletedRequests`, is sorted by
`totalBytes` descending, and ties keep the original encounter order (stable
sort): within each `totalBytes` class `topResults` is a prefix of the
aggregated rows, and when all rows have equal `totalBytes` the top list is
exactly the first 10 rows in encounter order. -/
theorem topResults_spec (networkRecords : List NetworkRecord) (networkThroughput : ℚ)
    (options : ScoreOptions) :
    (audit networkRecords networkThroughput options).topResults.length =
        min 10 (audit networkRecords networkThroughput options).totalCompletedRequests ∧
    (audit networkRecords networkThroughput options).topResults.Pairwise
        (fun itemA itemB => itemB.totalBytes ≤ itemA.totalBytes) ∧
    (∀ n : Nat,
      (audit networkRecords networkThroughput options).topResults.filter
          (fun r => r.totalBytes == n) <+:
        (aggregate networkRecords networkThroughput).2.filter (fun r => r.totalBytes == n)) ∧
    ((∀ r₁ ∈ (aggregate networkRecords networkThroughput).2,
        ∀ r₂ ∈ (aggregate networkRecords networkThroughput).2,
          r₁.totalBytes = r₂.totalBytes) →
      (audit networkRecords networkThroughput options).topResults =
        (aggregate networkRecords networkThroughput).2.take 10) := by
  refine ⟨?_, ?_, ?_, ?_⟩
  · rw [audit_topResults, audit_totalCompletedRequests, length_take, length_mergeSort]
  · rw [audit_topResults]
    have hsorted :
        ((aggregate networkRecords networkThroughput).2.mergeSort sortLe).Pairwise
          (fun a b => sortLe a b) :=
      sorted_mergeSort sortLe_trans sortLe_total _
    have htake := hsorted.sublist (take_sublist 10 _)
    exact htake.imp fun h => by simpa [sortLe] using h
  · intro n
    rw [audit_topResults]
    have hpre : ((aggregate networkRecords networkThroughput).2.mergeSort sortLe).take 10 <+:
        (aggregate networkRecords networkThroughput).2.mergeSort sortLe :=
      ⟨_, take_append_drop 10 _⟩
    have h := hpre.filter (fun r => r.totalBytes == n)
    rwa [mergeSort_filter_totalBytes] at h
  · intro hall
    rw [audit_topResults, mergeSort_of_sorted]
    apply pairwise_of_forall_mem_list
    intro a ha b hb
    simp [sortLe, hall a ha b hb]

/-- C10: the programmatic `extendedInfo.value.results` block is the same
sorted-and-sliced top-10 row list used for the table, so when more than 10
records pass the filter the remaining rows appear nowhere in the output — only
their contribution to `rawValue` and `totalCompletedRequests` survives. -/
theorem extendedInfo_is_truncated (networkRecords : List NetworkRecord)
    (networkThroughput : ℚ) (options : ScoreOptions) :
    (audit networkRecords networkThroughput options).extendedInfoResults =
        (audit networkRecords networkThroughput options).topResults ∧
    (audit networkRecords networkThroughput options).extendedInfoResults.length =
        min 10 (audit networkRecords networkThroughput options).totalCompletedRequests ∧
    (10 < (audit networkRecords networkThroughput options).totalCompletedRequests →
      (audit networkRecords networkThroughput options).extendedInfoResults.length <
        (audit networkRecords networkThroughput options).totalCompletedRequests) := by
  refine ⟨rfl, ?_, ?_⟩
  · show (((aggregate networkRecords networkThroughput).2.mergeSort sortLe).take 10).length = _
    rw [audit_totalCompletedRequests, length_take, length_mergeSort]
  · intro hgt
    show (((aggregate networkRecords networkThroughput).2.mergeSort sortLe).take 10).length < _
    rw [audit_totalCompletedRequests] at hgt ⊢
    rw [length_take, length_mergeSort]
    omega

lemma audit_score (networkRecords : List NetworkRecord) (networkThroughput : ℚ)
    (options : ScoreOptions) :
    (audit networkRecords networkThroughput options).score =
      computeLogNormalScore ((aggregate networkRecords networkThroughput).1 : ℝ)
        options.scorePODR options.scoreMedian := rfl

/-- Witness for C2 at the Scenario 4 input: fifteen equal-sized records give a
top list of exactly the first ten rows in encounter order. -/
theorem topResults_spec_witness :
    (∀ r₁ ∈ (aggregate sample15 1).2, ∀ r₂ ∈ (aggregate sample15 1).2,
        r₁.totalBytes = r₂.totalBytes) ∧
    (audit sample15 1 defaultOptions).topResults = (aggregate sample15 1).2.take 10 :=
  ⟨by decide, (topResults_spec sample15 1 defaultOptions).2.2.2 (by decide)⟩

/-- Witness for C10 at the Scenario 4 input: fifteen included records, but the
exposed row list stops at ten. -/
theorem extendedInfo_is_truncated_witness :
    10 < (audit sample15 1 defaultOptions).totalCompletedRequests ∧
    (audit sample15 1 defaultOptions).extendedInfoResults.length <
      (audit sample15 1 defaultOptions).totalCompletedRequests :=
  ⟨by decide, (extendedInfo_is_truncated sample15 1 defaultOptions).2.2 (by decide)⟩

/-- C4: the derived `flagged` field is true iff the record's `resourceType` is
script AND its `transferSize` strictly exceeds 174,080 bytes (170 × 1024);
false otherwise, including for non-script resource types of any size. -/
theorem flagged_iff (networkThroughput : ℚ) (record : NetworkRecord) :
    BUNDLE_SIZE_THRESHOLD = 174080 ∧
    ((toResult networkThroughput record).flagged = true ↔
      record.resourceType = ResourceType.script ∧ 174080 < record.transferSize) := by
  have h : BUNDLE_SIZE_THRESHOLD = 174080 := by norm_num [BUNDLE_SIZE_THRESHOLD]
  refine ⟨h, ?_⟩
  simp [toResult, hasExceededJSBundleSize, h, and_comm]

/-- C6: noninterference of throughput with `score` and `rawValue`: two runs on
the same record list and options but different throughput values return
identical `score` and `rawValue`. -/
theorem throughput_noninterference (networkRecords : List NetworkRecord)
    (networkThroughput₁ networkThroughput₂ : ℚ) (options : ScoreOptions) :
    (audit networkRecords networkThroughput₁ options).rawValue =
        (audit networkRecords networkThroughput₂ options).rawValue ∧
    (audit networkRecords networkThroughput₁ options).score =
        (audit networkRecords networkThroughput₂ options).score := by
  have hraw : (aggregate networkRecords networkThroughput₁).1 =
      (aggregate networkRecords networkThroughput₂).1 := by
    rw [aggregate_fst, aggregate_fst]
  constructor
  · rw [audit_rawValue, audit_rawValue, hraw]
  · rw [audit_score, audit_score, hraw]

/-- C7: with a throughput of zero, `totalMs` does not raise a division error
and degrades to the placeholder 0 for every included record. -/
theorem zero_throughput_totalMs (networkRecords : List NetworkRecord) :
    ∀ result ∈ (aggregate networkRecords 0).2, result.totalMs = 0 := by
  intro result hres
  rw [aggregate_snd] at hres
  obtain ⟨record, _, rfl⟩ := mem_map.mp hres
  simp [toResult, bytesToMs]

/-- Witness for C7: the single included record's row carries `totalMs = 0`. -/
theorem zero_throughput_totalMs_witness :
    toResult 0 sampleRecord ∈ (aggregate [sampleRecord] 0).2 ∧
    (toResult 0 sampleRecord).totalMs = 0 :=
  ⟨by decide, zero_throughput_totalMs [sampleRecord] (toResult 0 sampleRecord) (by decide)⟩

/-- C8: the aggregation and the whole audit are deterministic pure functions of
their inputs: identical input lists (same throughput and options) give
identical aggregation results and identical audit outcomes. -/
theorem audit_deterministic (networkRecords₁ networkRecords₂ : List NetworkRecord)
    (networkThroughput : ℚ) (options : ScoreOptions)
    (h : networkRecords₁ = networkRecords₂) :
    aggregate networkRecords₁ networkThroughput =
        aggregate networkRecords₂ networkThroughput ∧
    audit networkRecords₁ networkThroughput options =
      audit networkRecords₂ networkThroughput options := by
  subst h; exact ⟨rfl, rfl⟩

/-- Witness for C8 at a concrete one-record input. -/
theorem audit_deterministic_witness :
    [sampleRecord] = [sampleRecord] ∧
    aggregate [sampleRecord] 1 = aggregate [sampleRecord] 1 ∧
    audit [sampleRecord] 1 defaultOptions = audit [sampleRecord] 1 defaultOptions :=
  ⟨rfl, audit_deterministic [sampleRecord] [sampleRecord] 1 defaultOptions rfl⟩

/-- C9: the default calibration is `scorePODR = 2,560,000` and
`scoreMedian = 4,096,000` bytes, and the audit scores through whatever options
the caller supplies, so both values can be overridden. -/
theorem defaultOptions_spec :
    defaultOptions.scorePODR = 2560000 ∧ defaultOptions.scoreMedian = 4096000 ∧
    ∀ (options : ScoreOptions) (networkRecords : List NetworkRecord)
      (networkThroughput : ℚ),
      (audit networkRecords networkThroughput options).score =
        computeLogNormalScore
          ((audit networkRecords networkThroughput options).rawValue : ℝ)
          options.scorePODR options.scoreMedian := by
  refine ⟨by norm_num [defaultOptions], by norm_num [defaultOptions], ?_⟩
  intro options networkRecords networkThroughput
  rfl

lemma gaussian_eq :
    (fun t : ℝ => Real.exp (-(t ^ 2))) = fun t : ℝ => Real.exp (-1 * t ^ 2) := by
  funext t; norm_num

lemma continuous_gaussian : Continuous fun t : ℝ => Real.exp (-(t ^ 2)) := by
  fun_prop

lemma gaussian_intervalIntegrable (a b : ℝ) :
    IntervalIntegrable (fun t : ℝ => Real.exp (-(t ^ 2))) volume a b :=
  continuous_gaussian.intervalIntegrable a b

lemma gaussian_integrable :
    Integrable (fun t : ℝ => Real.exp (-(t ^ 2))) := by
  rw [gaussian_eq]
  exact integrable_exp_neg_mul_sq one_pos

/-- The error function is strictly increasing. -/
lemma erf_strictMono : StrictMono erf := by
  intro a b hab
  have hpos : 0 < ∫ t in a..b, Real.exp (-(t ^ 2)) :=
    intervalIntegral_pos_of_pos (gaussian_intervalIntegrable a b)
      (fun t => Real.exp_pos _) hab
  have hadd : (∫ t in (0:ℝ)..a, Real.exp (-(t ^ 2))) + ∫ t in a..b, Real.exp (-(t ^ 2)) =
      ∫ t in (0:ℝ)..b, Real.exp (-(t ^ 2)) :=
    integral_add_adjacent_intervals (gaussian_intervalIntegrable 0 a)
      (gaussian_intervalIntegrable a b)
  have hc : 0 < 2 / Real.sqrt Real.pi := by positivity
  unfold erf
  rw [← hadd]
  exact mul_lt_mul_of_pos_left (lt_add_of_pos_right
    (∫ t in (0:ℝ)..a, Real.exp (-(t ^ 2))) hpos) hc

lemma erf_zero : erf 0 = 0 := by
  simp [erf]

/-- The error function stays strictly below `1` (its value uses half of the
Gaussian integral `∫ t in Ioi 0, exp (-t²) = √π / 2`). -/
lemma erf_lt_one (x : ℝ) : erf x < 1 := by
  rcases le_or_lt x 0 with hx | hx
  · have h1 : erf x ≤ erf 0 := erf_strictMono.monotone hx
    rw [erf_zero] at h1
    linarith
  · have hIoi : (∫ t in Ioi (0:ℝ), Real.exp (-(t ^ 2))) = Real.sqrt Real.pi / 2 := by
      rw [gaussian_eq]
      simpa using integral_gaussian_Ioi 1
    have hsplit : (∫ t in Ioi (0:ℝ), Real.exp (-(t ^ 2))) =
        (∫ t in Ioc (0:ℝ) x, Real.exp (-(t ^ 2))) +
          ∫ t in Ioi x, Real.exp (-(t ^ 2)) := by
      rw [← setIntegral_union (Ioc_disjoint_Ioi_same) measurableSet_Ioi
        gaussian_integrable.integrableOn gaussian_integrable.integrableOn,
        Ioc_union_Ioi_eq_Ioi hx.le]
    have htail : 0 < ∫ t in Ioi x, Real.exp (-(t ^ 2)) := by
      rw [setIntegral_pos_iff_support_of_nonneg_ae]
      · have hsupp : Function.support (fun t : ℝ => Real.exp (-(t ^ 2))) = Set.univ := by
          ext t
          simp [Function.mem_support, Real.exp_ne_zero]
        rw [hsupp, Set.univ_inter, Real.volume_Ioi]
        simp
      · filter_upwards with t using (Real.exp_pos _).le
      · exact gaussian_integrable.integrableOn
    have h0x : (∫ t in (0:ℝ)..x, Real.exp (-(t ^ 2))) =
        ∫ t in Ioc (0:ℝ) x, Real.exp (-(t ^ 2)) := integral_of_le hx.le
    have hkey : (∫ t in (0:ℝ)..x, Real.exp (-(t ^ 2))) < Real.sqrt Real.pi / 2 := by
      rw [h0x]; linarith
    have hπ : 0 < Real.sqrt Real.pi := Real.sqrt_pos.mpr Real.pi_pos
    unfold erf
    calc (2 / Real.sqrt Real.pi) * ∫ t in (0:ℝ)..x, Real.exp (-(t ^ 2))
        < (2 / Real.sqrt Real.pi) * (Real.sqrt Real.pi / 2) :=
          mul_lt_mul_of_pos_left hkey (by positivity)
      _ = 1 := by field_simp

/-- The error function is odd. -/
lemma erf_neg (x : ℝ) : erf (-x) = -erf x := by
  unfold erf
  have h1 : (∫ t in (0:ℝ)..(-x), Real.exp (-(t ^ 2))) =
      ∫ t in (0:ℝ)..(-x), Real.exp (-((-t) ^ 2)) := by
    congr 1
    funext t
    ring_nf
  rw [h1, integral_comp_neg (fun t => Real.exp (-(t ^ 2)))]
  rw [neg_zero, integral_symm, neg_neg]
  ring

lemma neg_one_lt_erf (x : ℝ) : -1 < erf x := by
  have h := erf_lt_one (-x)
  rw [erf_neg] at h
  linarith

/-- C5: for fixed calibration constants with `0 < scorePODR < scoreMedian`, the
score curve is strictly decreasing for positive raw values, always lies in
`(0, 1]`, satisfies `score 0 > 0.99`, and takes a value within `±0.02` of `1/2`
at `scoreMedian`. -/
theorem computeLogNormalScore_spec (scorePODR scoreMedian : ℚ)
    (hpodr : 0 < scorePODR) (hlt : scorePODR < scoreMedian) :
    StrictAntiOn (fun value => computeLogNormalScore value scorePODR scoreMedian)
        (Set.Ioi (0:ℝ)) ∧
    (∀ value : ℝ, computeLogNormalScore value scorePODR scoreMedian ∈ Set.Ioc (0:ℝ) 1) ∧
    0.99 < computeLogNormalScore 0 scorePODR scoreMedian ∧
    |computeLogNormalScore ((scoreMedian : ℝ)) scorePODR scoreMedian - 1/2| ≤ 0.02 := by
  have hp : (0:ℝ) < (scorePODR : ℝ) := by exact_mod_cast hpodr
  have hm : (0:ℝ) < (scoreMedian : ℝ) := by exact_mod_cast hpodr.trans hlt
  have hr : (scorePODR : ℝ) < (scoreMedian : ℝ) := by exact_mod_cast hlt
  have hshape : 0 < logNormalShape scorePODR scoreMedian :=
    Real.log_pos ((one_lt_div hp).mpr hr)
  have hden : 0 < Real.sqrt 2 * logNormalShape scorePODR scoreMedian :=
    mul_pos (Real.sqrt_pos.mpr two_pos) hshape
  refine ⟨?_, ?_, ?_, ?_⟩
  · intro v₁ hv₁ v₂ hv₂ h12
    have hv₁' : (0:ℝ) < v₁ := hv₁
    have hv₂' : (0:ℝ) < v₂ := hv₂
    simp only [computeLogNormalScore, if_neg (not_le.mpr hv₁'), if_neg (not_le.mpr hv₂')]
    have hz : (Real.log v₁ - Real.log ((scoreMedian : ℝ))) /
          (Real.sqrt 2 * logNormalShape scorePODR scoreMedian) <
        (Real.log v₂ - Real.log ((scoreMedian : ℝ))) /
          (Real.sqrt 2 * logNormalShape scorePODR scoreMedian) := by
      gcongr
    have herf := erf_strictMono hz
    linarith
  · intro value
    by_cases hv : value ≤ 0
    · simp only [computeLogNormalScore, if_pos hv]
      rw [Set.mem_Ioc]
      norm_num
    · simp only [computeLogNormalScore, if_neg hv]
      rw [Set.mem_Ioc]
      constructor
      · have := erf_lt_one ((Real.log value - Real.log ((scoreMedian : ℝ))) /
          (Real.sqrt 2 * logNormalShape scorePODR scoreMedian))
        linarith
      · have := neg_one_lt_erf ((Real.log value - Real.log ((scoreMedian : ℝ))) /
          (Real.sqrt 2 * logNormalShape scorePODR scoreMedian))
        linarith
  · simp only [computeLogNormalScore, if_pos le_rfl]
    norm_num
  · simp only [computeLogNormalScore, if_neg (not_le.mpr hm), sub_self, zero_div, erf_zero]
    norm_num

/-- Witness for C5 at the audit's default calibration constants. -/
theorem computeLogNormalScore_spec_witness :
    (0:ℚ) < 2560000 ∧ (2560000:ℚ) < 4096000 ∧
    (StrictAntiOn (fun value => computeLogNormalScore value 2560000 4096000)
        (Set.Ioi (0:ℝ)) ∧
    (∀ value : ℝ, computeLogNormalScore value 2560000 4096000 ∈ Set.Ioc (0:ℝ) 1) ∧
    0.99 < computeLogNormalScore 0 2560000 4096000 ∧
    |computeLogNormalScore (((4096000:ℚ) : ℝ)) 2560000 4096000 - 1/2| ≤ 0.02) :=
  ⟨by norm_num, by norm_num,
    computeLogNormalScore_spec 2560000 4096000 (by norm_num) (by norm_num)⟩

end TotalByteWeight
